import Mathlib

/-!
Shallow embedding of `tarsnap-old-archives` (`main.go`, three variants separated
by document markers in the provided source; variant 1 = lines 1-169, variant 2 =
lines 170-383, variant 3 = lines 384-551).

Modelling conventions:
* `time.Time` is modelled as seconds since the Unix epoch (`Int`); the program
  only ever compares times with `Before` (strict `<`) and adds fixed
  `time.Duration` offsets (`30 * 24 * time.Hour`, `7 * 24 * time.Hour`), so the
  relative arithmetic is isomorphic to `Int` arithmetic at second resolution
  (the catalog format `2006-01-02 15:04:05` has second resolution).
* `now`-derived threshold dates `twoYearsAgo` / `twoMonthsAgo` are passed as
  parameters (the program computes them once per run from the wall clock).
* The input stream is modelled as the list of its lines (what `bufio.Scanner`
  with the default line splitter yields).
* stdout is modelled as a list of `String` lines; each `fmt.Println(a, b, ...)`
  call becomes one line joining its arguments with single spaces.
* The tarsnap backend (`exec.Command`) is an external collaborator, modelled as
  a function from the submitted name list to a result (success / "Archive does
  not exist" failure / other failure).
-/

namespace Tarsnap

/-- Seconds in one day; `24 * time.Hour` scaled to second resolution. -/
def day : Int := 86400

/-- One parsed archive record: `archiveItem` from main.go (`Date`, `Name`),
with the timestamp in seconds since the Unix epoch and `Time.Before`
modelled as `<` on `Int`. -/
structure ArchiveItem where
  date : Int
  name : String
deriving DecidableEq

/-- Leap-year test of the proleptic Gregorian calendar (as used by Go `time`). -/
def isLeap (y : Int) : Bool :=
  y % 4 = 0 && (y % 100 ≠ 0 || y % 400 = 0)

/-- Days in a month of the Gregorian calendar. -/
def daysInMonth (y : Int) (m : Nat) : Nat :=
  if m = 2 then (if isLeap y then 29 else 28)
  else if m = 4 || m = 6 || m = 9 || m = 11 then 30
  else 31

/-- Days since 1970-01-01 of a civil date (standard era-based conversion). -/
def daysFromCivil (y : Int) (m d : Nat) : Int :=
  let yy : Int := if m ≤ 2 then y - 1 else y
  let era : Int := Int.fdiv yy 400
  let yoe : Nat := (Int.fmod yy 400).toNat
  let mp : Nat := if m > 2 then m - 3 else m + 9
  let doy : Nat := (153 * mp + 2) / 5 + d - 1
  let doe : Nat := yoe * 365 + yoe / 4 - yoe / 100 + doy
  era * 146097 + (doe : Int) - 719468

/-- Civil date (year, month, day) of a count of days since 1970-01-01
(inverse of `daysFromCivil`). -/
def civilFromDays (z0 : Int) : Int × Nat × Nat :=
  let z : Int := z0 + 719468
  let era : Int := Int.fdiv z 146097
  let doe : Nat := (Int.fmod z 146097).toNat
  let yoe : Nat := (doe - doe / 1460 + doe / 36524 - doe / 146096) / 365
  let doy : Nat := doe - (365 * yoe + yoe / 4 - yoe / 100)
  let mp : Nat := (5 * doy + 2) / 153
  let d : Nat := doy - (153 * mp + 2) / 5 + 1
  let m : Nat := if mp < 10 then mp + 3 else mp - 9
  ((yoe : Int) + era * 400 + (if mp ≥ 10 then 1 else 0), m, d)

/-- Zero-padded two-digit decimal rendering. -/
def pad2 (n : Nat) : String :=
  if n < 10 then "0" ++ toString n else toString n

/-- Zero-padded four-digit decimal rendering (Go layout `2006`). -/
def pad4 (y : Int) : String :=
  if y < 0 then toString y
  else if y < 10 then "000" ++ toString y
  else if y < 100 then "00" ++ toString y
  else if y < 1000 then "0" ++ toString y
  else toString y

/-- Rendering of a timestamp in the Go layout `2006-01-02 15:04:05` (UTC). -/
def dateString (t : Int) : String :=
  let days := Int.fdiv t day
  let secs := (Int.fmod t day).toNat
  let c := civilFromDays days
  pad4 c.1 ++ "-" ++ pad2 c.2.1 ++ "-" ++ pad2 c.2.2 ++ " " ++
    pad2 (secs / 3600) ++ ":" ++ pad2 (secs % 3600 / 60) ++ ":" ++ pad2 (secs % 60)

/-- The `archiveItem.String` method: `a.Name + "\t" + a.Date.Format(...)`. -/
def itemString (a : ArchiveItem) : String :=
  a.name ++ "\t" ++ dateString a.date

/-- Value of a decimal digit character, `none` for non-digits. -/
def digitVal (c : Char) : Option Nat :=
  if c.isDigit then some (c.toNat - 48) else none

/-- Parse exactly two decimal digits (a fixed-width Go layout element such as
`01`, `02`, `04`, `05`). -/
def parse2 : List Char → Option (Nat × List Char)
  | a :: b :: rest =>
    match digitVal a, digitVal b with
    | some x, some y => some (10 * x + y, rest)
    | _, _ => none
  | _ => none

/-- Parse exactly four decimal digits (Go layout element `2006`). -/
def parse4 : List Char → Option (Nat × List Char)
  | a :: b :: c :: d :: rest =>
    match digitVal a, digitVal b, digitVal c, digitVal d with
    | some w, some x, some y, some z => some (1000 * w + 100 * x + 10 * y + z, rest)
    | _, _, _, _ => none
  | _ => none

/-- Parse one or (greedily) two decimal digits: the non-fixed Go layout element
`15` for the hour. -/
def parseHourNum : List Char → Option (Nat × List Char)
  | a :: b :: rest =>
    match digitVal a, digitVal b with
    | some x, some y => some (10 * x + y, rest)
    | some x, none => some (x, b :: rest)
    | none, _ => none
  | [a] => (digitVal a).map (fun x => (x, []))
  | [] => none

/-- Expect a literal separator character. -/
def expectChar (c : Char) : List Char → Option (List Char)
  | d :: rest => if d = c then some rest else none
  | [] => none

/-- The `time.Parse("2006-01-02 15:04:05", s)` call: strict parse of the fixed
layout (four-digit year, two-digit zero-padded month/day/minute/second,
one-or-two-digit hour), with Go's range validation of month, day-of-month,
hour, minute and second, no trailing input, result in epoch seconds (UTC). -/
def parseTimestamp (s : String) : Option Int := do
  let cs := s.toList
  let (y, cs) ← parse4 cs
  let cs ← expectChar '-' cs
  let (mo, cs) ← parse2 cs
  let cs ← expectChar '-' cs
  let (d, cs) ← parse2 cs
  let cs ← expectChar ' ' cs
  let (h, cs) ← parseHourNum cs
  let cs ← expectChar ':' cs
  let (mi, cs) ← parse2 cs
  let cs ← expectChar ':' cs
  let (se, cs) ← parse2 cs
  if cs ≠ [] then none
  else if mo < 1 || 12 < mo then none
  else if d < 1 || daysInMonth (y : Int) mo < d then none
  else if 24 ≤ h || 60 ≤ mi || 60 ≤ se then none
  else
    some (daysFromCivil (y : Int) mo d * day + (h * 3600 + mi * 60 + se : Nat))

/-- The `strings.Count(line, "\t")` call. -/
def tabCount (l : String) : Nat :=
  l.toList.count '\t'

/-- The `strings.SplitN(line, "\t", 2)` call: text before the first tab and
text after it (the second component is only consulted when the line has
exactly one tab). -/
def splitTab (l : String) : String × String :=
  let cs := l.toList
  (String.mk (cs.takeWhile (fun c => c ≠ '\t')),
   String.mk ((cs.dropWhile (fun c => c ≠ '\t')).drop 1))

/-- The scan loop of `getArchiveItems` (lines 33-48 / 203-218 / 416-431):
each line must contain exactly one tab and a parsable timestamp, otherwise
the whole call fails with an error; records are accumulated in input order. -/
def parseCatalogLines : List String → Except String (List ArchiveItem)
  | [] => Except.ok []
  | l :: rest =>
    if tabCount l ≠ 1 then
      Except.error ("wrong number of tabs in line: want 1 got " ++
        toString (tabCount l) ++ ": " ++ l)
    else
      match parseTimestamp (splitTab l).2 with
      | none => Except.error ("parsing time " ++ (splitTab l).2 ++ " failed")
      | some t => (parseCatalogLines rest).map (fun items => ⟨t, (splitTab l).1⟩ :: items)

/-- Insertion step of the sort used to model `sort.Slice` with
`items[i].Date.Before(items[j].Date)`. -/
def insertByDate (a : ArchiveItem) : List ArchiveItem → List ArchiveItem
  | [] => [a]
  | b :: rest => if a.date < b.date then a :: b :: rest else b :: insertByDate a rest

/-- Sorting by ascending `date`. The source calls `sort.Slice`, whose concrete
algorithm lives in the Go standard library (and is documented as not
guaranteed stable); this embedding realises the sorted-output contract with an
insertion sort. Equal-timestamp order is therefore NOT determined by the
repository source, only by the library internals. -/
def sortByDate : List ArchiveItem → List ArchiveItem
  | [] => []
  | a :: rest => insertByDate a (sortByDate rest)

/-- The `getArchiveItems` function (lines 30-56 / 200-226 / 413-439): parse
every line, failing on the first malformed one, then sort by date. -/
def getArchiveItems (lines : List String) : Except String (List ArchiveItem) :=
  (parseCatalogLines lines).map sortByDate

/-- A catalog line the scan loop accepts: exactly one tab, and the text after
the tab parses as a timestamp. -/
def wellFormedLine (l : String) : Bool :=
  tabCount l = 1 && (parseTimestamp (splitTab l).2).isSome

/-- The window-end computation shared by all three variants (lines 122-126,
310-314, 507-511): a 30-day window iff `periodStart + 30 days` is strictly
before `twoYearsAgo`, else a 7-day window iff `periodStart + 7 days` is
strictly before `twoMonthsAgo`, else no window. -/
def periodEndOf (twoYearsAgo twoMonthsAgo periodStart : Int) : Option Int :=
  if periodStart + 30 * day < twoYearsAgo then some (periodStart + 30 * day)
  else if periodStart + 7 * day < twoMonthsAgo then some (periodStart + 7 * day)
  else none

/-- A selection decision event, in emission order: `keep` (printed `"keep"` in
variant 1, `"keep1"` in variants 2/3), `discard` (also appended to
`discardItems`), `gone` (variant 2 only: name found in the already-deleted
map during the window scan). -/
inductive SelEvent
  | keep (a : ArchiveItem)
  | discard (a : ArchiveItem)
  | gone (name : String)
deriving DecidableEq

/-- The selection loop of variant 1 (lines 116-143) as an explicit state
machine over the cursor position. State `none` is the top of the outer loop
(the current record becomes the anchor and is printed `keep`); state `some e`
is the inner loop with `periodEnd = e`. When a record ends a window, variant 1
prints `keep` for it in the inner loop (line 140) and breaks WITHOUT advancing
the cursor, so the outer loop processes the same record again as the next
anchor and prints `keep` a second time (line 127 or 131) — hence the two
consecutive `keep` events for that record. -/
def selV1go (t2y t2m : Int) : Option Int → List ArchiveItem → List SelEvent
  | _, [] => []
  | none, a :: rest =>
    SelEvent.keep a :: selV1go t2y t2m (periodEndOf t2y t2m a.date) rest
  | some e, a :: rest =>
    if a.date < e then
      SelEvent.discard a :: selV1go t2y t2m (some e) rest
    else
      SelEvent.keep a :: SelEvent.keep a :: selV1go t2y t2m (periodEndOf t2y t2m a.date) rest

/-- Variant 1 selection over the matched items. -/
def selectV1 (t2y t2m : Int) (items : List ArchiveItem) : List SelEvent :=
  selV1go t2y t2m none items

/-- Cursor state of the variant 2/3 selection loop: `seek` is the top of the
outer loop, `skipNext` is the pending second `currentIndex++` of the
recent-tier branch (lines 315-316 / 512-513), `window e` is the inner loop
with `periodEnd = e`. -/
inductive SelState
  | seek
  | skipNext
  | window (e : Int)
deriving DecidableEq

/-- State entered after processing an anchor: a window when one opens, else
the pending extra cursor advance. -/
def stateForAnchor (t2y t2m d : Int) : SelState :=
  match periodEndOf t2y t2m d with
  | none => SelState.skipNext
  | some e => SelState.window e

/-- The selection loop of variants 2/3 (lines 302-333 and 499-525; variant 3
is variant 2 with an always-empty already-deleted map) as a state machine.
At the top of the outer loop (`seek`) the current record is printed `keep1`
and the cursor advances; if no window opens, the recent-tier `else` does
`currentIndex++` a SECOND time (state `skipNext`), so the record after a
recent anchor is consumed without being classified at all. Inside a window
(`window e`) the already-deleted check precedes the date check, so an
already-deleted record is reported `gone` even when it lies at or past the
window end; a non-deleted record at or past the end breaks without printing
and the outer loop immediately treats it as the next anchor (the final
`else` below fuses that break with the outer-loop step). -/
def selV2go (t2y t2m : Int) (removed : String → Bool) :
    SelState → List ArchiveItem → List SelEvent
  | _, [] => []
  | SelState.skipNext, _ :: rest => selV2go t2y t2m removed SelState.seek rest
  | SelState.seek, a :: rest =>
    SelEvent.keep a :: selV2go t2y t2m removed (stateForAnchor t2y t2m a.date) rest
  | SelState.window e, a :: rest =>
    if removed a.name then
      SelEvent.gone a.name :: selV2go t2y t2m removed (SelState.window e) rest
    else if a.date < e then
      SelEvent.discard a :: selV2go t2y t2m removed (SelState.window e) rest
    else
      SelEvent.keep a :: selV2go t2y t2m removed (stateForAnchor t2y t2m a.date) rest

/-- Variant 2 selection over the matched items, given the already-deleted map. -/
def selectV2 (t2y t2m : Int) (removed : String → Bool) (items : List ArchiveItem) :
    List SelEvent :=
  selV2go t2y t2m removed SelState.seek items

/-- The `discardItems` list accumulated by a selection run: the records of the
`discard` events, in order. -/
def discards (evts : List SelEvent) : List ArchiveItem :=
  evts.filterMap fun
    | SelEvent.discard a => some a
    | _ => none

/-- Result of one `tarsnap -d -f n1 [-f n2 ...]` invocation, as far as the
program inspects it: success, failure whose combined output contains
`"Archive does not exist"`, or any other failure. The backend itself is an
external collaborator; a run's backend behaviour is a function from the
submitted name list to one of these. -/
inductive BatchResult
  | ok
  | notExist
  | otherErr
deriving DecidableEq

/-- One observable executor outcome, in emission order. `goneBatch` is the
single line `fmt.Println("gone   ", args)` printed when a whole batch request
fails with the "does not exist" output (lines 370-372); `fatal` stands for the
`cancel(); log.Fatal(err)` path (error text goes to stderr, the process dies). -/
inductive ExecEvent
  | gone (name : String)
  | goneBatch (names : List String)
  | deleted (name : String)
  | fatal
deriving DecidableEq

/-- Result of forming one batch (the inner `j` loop at lines 344-352):
the `gone` reports printed during formation, the names appended to `args`
(in order), and the final value of `i`. Note the source increments `i` only
when a name is appended, while `j` always advances — with already-deleted
names in the window this makes the next batch restart at an index the
previous `j` loop already visited. -/
structure FormResult where
  events : List ExecEvent
  batch : List String
  nextI : Nat
deriving DecidableEq

/-- The batch-formation loop of variant 2 multi mode (lines 343-352):
`steps` counts the remaining `j` iterations (`j < initialIndex+100`), `j`
is the scan index, `i` the outer cursor. -/
def formBatch (removed : String → Bool) (d : List ArchiveItem) :
    Nat → Nat → Nat → FormResult
  | 0, _, i => ⟨[], [], i⟩
  | steps + 1, j, i =>
    match d[j]? with
    | none => ⟨[], [], i⟩
    | some a =>
      if removed a.name then
        let r := formBatch removed d steps (j + 1) i
        ⟨ExecEvent.gone a.name :: r.events, r.batch, r.nextI⟩
      else
        let r := formBatch removed d steps (j + 1) (i + 1)
        ⟨r.events, a.name :: r.batch, r.nextI⟩

/-- The goroutine body for one batch (lines 363-381): run
`tarsnap -d -f n1 [-f n2 ...]`; on success print `deleted` for each name
(the `for i := 2; i < len(args); i += 2` loop); on failure whose output
contains "Archive does not exist" print the single `gone` line for the whole
argument list and return; on any other failure cancel and `log.Fatal`.
The Bool is true when the run must stop (the fatal path). -/
def runBatch (backend : List String → BatchResult) (names : List String) :
    List ExecEvent × Bool :=
  match backend names with
  | BatchResult.ok => (names.map ExecEvent.deleted, false)
  | BatchResult.notExist => ([ExecEvent.goneBatch names], false)
  | BatchResult.otherErr => ([ExecEvent.fatal], true)

/-- The executor loop of variant 2 in multi mode (lines 339-382), fuel-indexed:
each iteration forms a batch of at most 100 names starting at cursor `i`,
submits it, and continues at the cursor the formation produced. The semaphore
of capacity 1 serialises batches, so the loop is modelled sequentially.
Returns the emitted events and the list of submitted name lists (backend
invocations). Fuel exhaustion returns the empty remainder; `d.length + 1`
iterations suffice whenever every pass appends at least one name (in the
source, a pass that appends none loops forever). -/
def execLoopV2 (backend : List String → BatchResult) (removed : String → Bool)
    (d : List ArchiveItem) : Nat → Nat → List ExecEvent × List (List String)
  | 0, _ => ([], [])
  | fuel + 1, i =>
    if i < d.length then
      let f := formBatch removed d 100 i i
      let r := runBatch backend f.batch
      if r.2 then
        (f.events ++ r.1, [f.batch])
      else
        let k := execLoopV2 backend removed d fuel f.nextI
        (f.events ++ r.1 ++ k.1, f.batch :: k.2)
    else ([], [])

/-- The variant 2 deletion executor over the discard list. -/
def execV2 (backend : List String → BatchResult) (removed : String → Bool)
    (d : List ArchiveItem) : List ExecEvent × List (List String) :=
  execLoopV2 backend removed d (d.length + 1) 0

/-- Printed line for a variant 1 selection event. `dryRunPrint` only prints
when dry-run is on; variant 1 prints `keep`/`discard` and never prints `gone`
during selection (the `gone` case is included for totality but `selectV1`
emits no such event). -/
def renderSelV1 (dryRun : Bool) (evts : List SelEvent) : List String :=
  evts.filterMap fun
    | SelEvent.keep a => if dryRun then some ("keep " ++ itemString a) else none
    | SelEvent.discard a => if dryRun then some ("discard " ++ itemString a) else none
    | SelEvent.gone n => some ("gone    " ++ n)

/-- Printed line for a variant 2 selection event: `keep1`/`discard` go through
`dryRunPrint` (lines 303, 325) and appear only in dry-run mode, while the
`gone` report uses `fmt.Println("gone   ", name)` directly (line 320) and is
printed in both modes. -/
def renderSelV2 (dryRun : Bool) (evts : List SelEvent) : List String :=
  evts.filterMap fun
    | SelEvent.keep a => if dryRun then some ("keep1 " ++ itemString a) else none
    | SelEvent.discard a => if dryRun then some ("discard " ++ itemString a) else none
    | SelEvent.gone n => some ("gone    " ++ n)

/-- Printed stdout line for an executor event; the fatal path writes to
stderr and kills the process, so it yields no stdout line. The `goneBatch`
line prints the Go slice `args` (e.g. `[-d -f name1 -f name2]`). -/
def renderExecEvent : ExecEvent → Option String
  | ExecEvent.gone n => some ("gone    " ++ n)
  | ExecEvent.goneBatch names =>
      some ("gone    [" ++
        String.intercalate " " ("-d" :: names.flatMap (fun n => ["-f", n])) ++ "]")
  | ExecEvent.deleted n => some ("deleted " ++ n)
  | ExecEvent.fatal => none

/-- The variant 2 main flow after flag parsing and catalog loading (lines
290-382): filter by the compiled regex (`matches`), run selection, then in
dry-run mode return (line 334-336) without ever constructing the executor;
otherwise run the executor over the accumulated discard list. Result: the
stdout lines and the list of backend delete invocations. -/
def runMainV2 (dryRun : Bool) (nameFilter removed : String → Bool) (t2y t2m : Int)
    (items : List ArchiveItem) (backend : List String → BatchResult) :
    List String × List (List String) :=
  let matched := items.filter fun a => nameFilter a.name
  let sel := selectV2 t2y t2m removed matched
  let selLines := renderSelV2 dryRun sel
  if dryRun then (selLines, [])
  else
    let ex := execV2 backend removed (discards sel)
    (selLines ++ ex.1.filterMap renderExecEvent, ex.2)

/-- The regex pre-processing of all variants (lines 73-78 / 246-251 / 456-461):
if the pattern does not begin with `^`, prepend `.*`; if the (possibly
extended) pattern does not end with `$`, append `.*`. Byte indexing
`regex[0]` / `regex[len(regex)-1]` is modelled as first/last character
(identical for ASCII patterns); the empty pattern is rejected before this
point in the source. -/
def augmentRegex (regex : String) : String :=
  let r := if regex.toList.head? = some '^' then regex else ".*" ++ regex
  if r.toList.getLast? = some '$' then r else r ++ ".*"

/-- Modelled from the spec: the name filter is an external collaborator (the
compiled Go regexp applied with `MatchString`). This model covers the regex
fragment the transformation at lines 73-78 manipulates: literal characters,
`.` (any character), postfix `*` (Kleene star), and the `^`/`$` anchors. An
atom is a single-character matcher. -/
inductive Atom
  | any
  | lit (c : Char)
deriving DecidableEq

/-- One pattern piece: an atom matched once, or an atom under a Kleene star. -/
inductive Piece
  | one (a : Atom)
  | star (a : Atom)
deriving DecidableEq

/-- Does an atom match one character. -/
def matchAtom : Atom → Char → Bool
  | Atom.any, _ => true
  | Atom.lit c, d => c == d

/-- The atom denoted by one pattern character. -/
def atomOf (c : Char) : Atom :=
  if c = '.' then Atom.any else Atom.lit c

/-- Parse a pattern body (no anchors) into pieces; a `*` directly after an
atom stars it. -/
def parsePieces : List Char → List Piece
  | [] => []
  | c :: '*' :: rest2 => Piece.star (atomOf c) :: parsePieces rest2
  | c :: rest => Piece.one (atomOf c) :: parsePieces rest

/-- The text suffixes a starred atom can leave for the remaining pattern:
the text itself, and every suffix reached by consuming leading characters the
atom matches. -/
def starTries (a : Atom) : List Char → List (List Char)
  | [] => [[]]
  | c :: s => (c :: s) :: (if matchAtom a c then starTries a s else [])

/-- Match a piece list against the text starting at its first character;
`dollar` requires the match to consume the whole text. -/
def matchHere : List Piece → Bool → List Char → Bool
  | [], dollar, s => if dollar then s.isEmpty else true
  | Piece.one a :: ps, dollar, s =>
    match s with
    | [] => false
    | c :: s2 => matchAtom a c && matchHere ps dollar s2
  | Piece.star a :: ps, dollar, s =>
    (starTries a s).any fun s2 => matchHere ps dollar s2

/-- Unanchored search: match at some starting position (Go `MatchString`
semantics for a pattern without `^`). -/
def searchFrom (ps : List Piece) (dollar : Bool) : List Char → Bool
  | [] => matchHere ps dollar []
  | c :: s => matchHere ps dollar (c :: s) || searchFrom ps dollar s

/-- Modelled from the spec: `rx.MatchString(s)` for the compiled pattern.
A leading `^` anchors the match at the start; a trailing `$` requires it to
end at the end of the text; otherwise the pattern may match anywhere. -/
def reMatch (pat s : String) : Bool :=
  let cs := pat.toList
  let caret := cs.head? = some '^'
  let cs1 := if caret then cs.drop 1 else cs
  let dollar := cs1.getLast? = some '$'
  let cs2 := if dollar then cs1.dropLast else cs1
  let ps := parsePieces cs2
  if caret then matchHere ps dollar s.toList else searchFrom ps dollar s.toList

/-- Does the line begin with the given prefix word (string prefix on the
character sequence). -/
def strStartsWith (l p : String) : Bool :=
  List.isPrefixOf p.toList l.toList

/-- The stable-prefix contract of the reporting output: every status line
begins with `keep`, `discard`, `gone` or `deleted`. -/
def stableTag (l : String) : Prop :=
  strStartsWith l "keep" = true ∨ strStartsWith l "discard" = true ∨
    strStartsWith l "gone" = true ∨ strStartsWith l "deleted" = true

/-- Success test for an `Except` result. -/
def isOkE {α β : Type} : Except α β → Bool
  | Except.ok _ => true
  | Except.error _ => false

/-- C1 counterexample: the claim says an anchor whose age is at least the
2-year threshold opens a 30-day window. With thresholds `twoYearsAgo = 0`,
`twoMonthsAgo = 660` days (a realistic 22-month gap) and an anchor `a` one day
older than the 2-year threshold, the record `b` ten days after `a` lies inside
the 30-day window the claim predicts, yet neither variant discards it: the
code tests `periodStart + 30 days < twoYearsAgo`, which fails here, and opens
a 7-day window instead. -/
theorem selection_tier_boundary_cex :
    ((⟨-day, "a"⟩ : ArchiveItem).date ≤ 0
      ∧ (⟨-day, "a"⟩ : ArchiveItem).date < (⟨9 * day, "b"⟩ : ArchiveItem).date
      ∧ (⟨9 * day, "b"⟩ : ArchiveItem).date < (⟨-day, "a"⟩ : ArchiveItem).date + 30 * day)
    ∧ discards (selectV1 0 (660 * day) [⟨-day, "a"⟩, ⟨9 * day, "b"⟩]) = []
    ∧ discards (selectV2 0 (660 * day) (fun _ => false) [⟨-day, "a"⟩, ⟨9 * day, "b"⟩]) = []
    ∧ selectV1 0 (660 * day) [⟨-day, "a"⟩, ⟨9 * day, "b"⟩]
        = [SelEvent.keep ⟨-day, "a"⟩, SelEvent.keep ⟨9 * day, "b"⟩,
           SelEvent.keep ⟨9 * day, "b"⟩] := by
  decide

/-- C2 (code_bug): in variants 2/3 the recent-tier branch advances the cursor
twice (lines 305 and 315), so with two records both younger than the 2-month
threshold the selector emits only the first record's `keep1`; the second
record appears in no event at all — neither kept, nor discarded, nor gone —
although the claim (and the code's own comment "sooner than two months, all")
requires it to be labeled Keep. -/
theorem recent_tier_skip_eval :
    (660 * day < (⟨700 * day, "r1"⟩ : ArchiveItem).date
      ∧ 660 * day < (⟨701 * day, "r2"⟩ : ArchiveItem).date)
    ∧ selectV2 0 (660 * day) (fun _ => false)
        [⟨700 * day, "r1"⟩, ⟨701 * day, "r2"⟩]
      = [SelEvent.keep ⟨700 * day, "r1"⟩] := by
  decide

/-- C3 counterexample: with `twoYearsAgo = 1000` days and catalog
`a@0, x@40d, y@50d`, record `y` is discarded when nothing is already-removed
(x ends a's 30-day window and anchors its own window containing y), but adding
`x` to the already-removed set flips `y` to kept — so marking one archive
already-removed DOES change another archive's Keep/Discard label. Moreover an
already-removed record reached at the top of the outer loop becomes an anchor
and is reported `keep1`, not `gone`. -/
theorem already_removed_cex :
    discards (selectV2 (1000 * day) (1660 * day) (fun _ => false)
        [⟨0, "a"⟩, ⟨40 * day, "x"⟩, ⟨50 * day, "y"⟩]) = [⟨50 * day, "y"⟩]
    ∧ discards (selectV2 (1000 * day) (1660 * day) (fun n => n == "x")
        [⟨0, "a"⟩, ⟨40 * day, "x"⟩, ⟨50 * day, "y"⟩]) = []
    ∧ selectV2 (1000 * day) (1660 * day) (fun n => n == "a") [⟨0, "a"⟩]
      = [SelEvent.keep ⟨0, "a"⟩] := by
  decide

/-- C4 counterexample: a two-name batch whose batch request fails with the
"Archive does not exist" condition while each single-name request would
succeed. The claim predicts the executor falls back to one-name deletes,
classifying `x` AlreadyGone and `y` Deleted; the code instead prints one
wholesale `gone` line for the whole argument list, makes exactly one backend
call, and never emits `deleted y`. -/
theorem batch_fallback_cex :
    execV2 (fun ns => if ns = ["x", "y"] then BatchResult.notExist else BatchResult.ok)
        (fun _ => false) [⟨0, "x"⟩, ⟨0, "y"⟩]
      = ([ExecEvent.goneBatch ["x", "y"]], [["x", "y"]])
    ∧ ExecEvent.deleted "y" ∉
        (execV2 (fun ns => if ns = ["x", "y"] then BatchResult.notExist else BatchResult.ok)
          (fun _ => false) [⟨0, "x"⟩, ⟨0, "y"⟩]).1 := by
  decide

/-- C7 (confirmed): with dry-run on, the program performs selection and prints
the decision lines, but the backend call list is empty — the deleter
collaborator is never invoked, whatever the catalog, filter, already-removed
set or backend behaviour (and hence however large the discard set is). -/
theorem dry_run_no_deleter (nameFilter removed : String → Bool) (t2y t2m : Int)
    (items : List ArchiveItem) (backend : List String → BatchResult) :
    (runMainV2 true nameFilter removed t2y t2m items backend).2 = []
    ∧ (runMainV2 true nameFilter removed t2y t2m items backend).1
      = renderSelV2 true
          (selectV2 t2y t2m removed (items.filter fun a => nameFilter a.name)) := by
  constructor <;> rfl

/-- C8 counterexample: the claim requires exactly one status line per
decision. In variant 1 (dry-run), a record that terminates a window is printed
`keep` by the inner loop (line 140) and again by the outer loop when it
re-anchors (line 131): record `b` gets its `keep` line twice. -/
theorem status_lines_one_per_decision_cex :
    renderSelV1 true (selectV1 (1000 * day) (1660 * day) [⟨0, "a"⟩, ⟨40 * day, "b"⟩])
      = ["keep a\t1970-01-01 00:00:00", "keep b\t1970-02-10 00:00:00",
         "keep b\t1970-02-10 00:00:00"]
    ∧ (renderSelV1 true (selectV1 (1000 * day) (1660 * day)
          [⟨0, "a"⟩, ⟨40 * day, "b"⟩])).count "keep b\t1970-02-10 00:00:00" = 2 := by
  decide

/-- C1 (amended): the selector chooses the window from the anchor's own date,
but by testing the prospective window end against the thresholds, not the
anchor's age: a 30-day window opens iff `anchor.date + 30 days` is strictly
before `twoYearsAgo`; otherwise a 7-day window opens iff `anchor.date + 7
days` is strictly before `twoMonthsAgo`; otherwise no window opens and (in
variants 2/3) the record following the anchor is additionally skipped. Stated
behaviourally for an anchor `a` and the record `b` after it: `b` is discarded
exactly under the code's window condition, in both variant 1 and variants 2/3. -/
theorem selection_tier_boundary_amended (t2y t2m : Int) (a b : ArchiveItem) :
    discards (selectV1 t2y t2m [a, b]) =
      (if (a.date + 30 * day < t2y ∧ b.date < a.date + 30 * day) ∨
          (¬ a.date + 30 * day < t2y ∧ a.date + 7 * day < t2m ∧ b.date < a.date + 7 * day)
        then [b] else [])
    ∧ discards (selectV2 t2y t2m (fun _ => false) [a, b]) =
      (if (a.date + 30 * day < t2y ∧ b.date < a.date + 30 * day) ∨
          (¬ a.date + 30 * day < t2y ∧ a.date + 7 * day < t2m ∧ b.date < a.date + 7 * day)
        then [b] else []) := by
  constructor <;>
  · by_cases h30 : a.date + 30 * day < t2y <;> by_cases h7 : a.date + 7 * day < t2m <;>
      by_cases hb30 : b.date < a.date + 30 * day <;> by_cases hb7 : b.date < a.date + 7 * day <;>
      simp [selectV1, selV1go, selectV2, selV2go, stateForAnchor, periodEndOf, discards,
        h30, h7, hb30, hb7]

/-- C6 (confirmed): windows are half-open. If every record of `pre` lies
strictly before the window end `e` and `r` sits exactly at `e`, then the
window scan discards exactly `pre`, keeps `r` (it is not discarded), and `r`
becomes the next candidate anchor: in variant 1 the inner loop prints `keep`
for `r` and the outer loop re-processes `r` as the anchor; in variants 2/3
the scan continues at `r` in the anchor-seeking state. -/
theorem window_end_half_open (t2y t2m e : Int) (pre : List ArchiveItem)
    (r : ArchiveItem) (post : List ArchiveItem)
    (hpre : ∀ x ∈ pre, x.date < e) (hr : r.date = e) :
    selV1go t2y t2m (some e) (pre ++ r :: post)
      = pre.map SelEvent.discard ++ SelEvent.keep r :: selV1go t2y t2m none (r :: post)
    ∧ selV2go t2y t2m (fun _ => false) (SelState.window e) (pre ++ r :: post)
      = pre.map SelEvent.discard
          ++ selV2go t2y t2m (fun _ => false) SelState.seek (r :: post) := by
  induction pre with
  | nil =>
    have hlt : ¬ r.date < e := by omega
    constructor
    · simp [selV1go, hlt]
    · simp [selV2go, hlt]
  | cons x pre ih =>
    have hx : x.date < e := hpre x (by simp)
    have ih2 := ih fun y hy => hpre y (by simp [hy])
    constructor
    · simp [selV1go, hx, ih2.1]
    · simp [selV2go, hx, ih2.2]

/-- Witness for `window_end_half_open` at a concrete window: one record one
second inside the window, one record exactly at the window end. -/
theorem window_end_half_open_w :
    selV1go 0 0 (some day) ([⟨day - 1, "p"⟩] ++ ⟨day, "r"⟩ :: [])
      = [⟨day - 1, "p"⟩].map SelEvent.discard
          ++ SelEvent.keep ⟨day, "r"⟩ :: selV1go 0 0 none (⟨day, "r"⟩ :: [])
    ∧ selV2go 0 0 (fun _ => false) (SelState.window day) ([⟨day - 1, "p"⟩] ++ ⟨day, "r"⟩ :: [])
      = [⟨day - 1, "p"⟩].map SelEvent.discard
          ++ selV2go 0 0 (fun _ => false) SelState.seek (⟨day, "r"⟩ :: []) :=
  window_end_half_open 0 0 day [⟨day - 1, "p"⟩] ⟨day, "r"⟩ [] (by decide) rfl

/-- Soundness of the variant 2 selection events with respect to the
already-removed map, for every cursor state: a discarded record is never
already-removed (the `gone` check precedes the date check), and a `gone`
report names only already-removed records. -/
theorem selV2go_events_sound (t2y t2m : Int) (removed : String → Bool)
    (items : List ArchiveItem) :
    ∀ st : SelState,
      (∀ d ∈ discards (selV2go t2y t2m removed st items), removed d.name = false)
      ∧ (∀ n, SelEvent.gone n ∈ selV2go t2y t2m removed st items → removed n = true) := by
  induction items with
  | nil => intro st; simp [selV2go, discards]
  | cons a rest ih =>
    intro st
    rcases st with _ | _ | e
    · exact ⟨fun d hd => (ih _).1 d (by simpa [selV2go, discards] using hd),
             fun n hn => (ih _).2 n (by simpa [selV2go] using hn)⟩
    · exact ⟨fun d hd => (ih _).1 d (by simpa [selV2go, discards] using hd),
             fun n hn => (ih _).2 n (by simpa [selV2go] using hn)⟩
    · by_cases hrm : removed a.name
      · refine ⟨fun d hd => (ih _).1 d (by simpa [selV2go, hrm, discards] using hd),
                fun n hn => ?_⟩
        have h2 : n = a.name
            ∨ SelEvent.gone n ∈ selV2go t2y t2m removed (SelState.window e) rest := by
          simpa [selV2go, hrm] using hn
        rcases h2 with rfl | h
        · exact hrm
        · exact (ih _).2 n h
      · by_cases hlt : a.date < e
        · refine ⟨fun d hd => ?_,
                  fun n hn => (ih _).2 n (by simpa [selV2go, hrm, hlt] using hn)⟩
          have h2 : d = a
              ∨ d ∈ discards (selV2go t2y t2m removed (SelState.window e) rest) := by
            simpa [selV2go, hrm, hlt, discards] using hd
          rcases h2 with rfl | h
          · simpa using hrm
          · exact (ih _).1 d h
        · exact ⟨fun d hd => (ih _).1 d (by simpa [selV2go, hrm, hlt, discards] using hd),
                 fun n hn => (ih _).2 n (by simpa [selV2go, hrm, hlt] using hn)⟩

/-- C3 (amended): an already-removed record never appears in the discard
output of the variant 2 selector, and every `gone` report names an
already-removed record. (The other two parts of the claim fail, see the
counterexample: removing a window-terminating record shifts the anchor and
can flip another record's label, and an already-removed record reached while
the outer loop seeks an anchor becomes the anchor and is reported `keep1`,
not `gone`.) -/
theorem already_removed_accounting (t2y t2m : Int) (removed : String → Bool)
    (items : List ArchiveItem) :
    (∀ d ∈ discards (selectV2 t2y t2m removed items), removed d.name = false)
    ∧ (∀ n, SelEvent.gone n ∈ selectV2 t2y t2m removed items → removed n = true) :=
  selV2go_events_sound t2y t2m removed items SelState.seek

/-- Witness for `already_removed_accounting`: in a run where `g` is
already-removed and `y` is discarded, the theorem yields that `y` is not
removed and `g` is. -/
theorem already_removed_accounting_w :
    ("y" == "g") = false ∧ ("g" == "g") = true :=
  ⟨(already_removed_accounting (1000 * day) (1660 * day) (fun n => n == "g")
      [⟨0, "a"⟩, ⟨5 * day, "g"⟩, ⟨10 * day, "y"⟩]).1 ⟨10 * day, "y"⟩ (by decide),
   (already_removed_accounting (1000 * day) (1660 * day) (fun n => n == "g")
      [⟨0, "a"⟩, ⟨5 * day, "g"⟩, ⟨10 * day, "y"⟩]).2 "g" (by decide)⟩

/-- Drop at a valid index splits off the element there. -/
theorem drop_cons_of_getElem (l : List ArchiveItem) :
    ∀ (j : Nat) (a : ArchiveItem), l[j]? = some a → l.drop j = a :: l.drop (j + 1) := by
  induction l with
  | nil => intro j a h; simp at h
  | cons x t ih =>
    intro j a h
    cases j with
    | zero => simp_all
    | succ j => simpa using ih j a (by simpa using h)

/-- Batch formation with nothing already-removed: no `gone` reports, the
batch is the next `steps` names from position `j`, and the cursor advances by
their count. -/
theorem formBatch_all_kept (d : List ArchiveItem) :
    ∀ (steps j i : Nat),
      formBatch (fun _ => false) d steps j i
        = ⟨[], ((d.drop j).take steps).map ArchiveItem.name,
            i + ((d.drop j).take steps).length⟩ := by
  intro steps
  induction steps with
  | zero => intro j i; simp [formBatch]
  | succ steps ih =>
    intro j i
    rcases hj : d[j]? with _ | a
    · have hle : d.length ≤ j := by simpa using hj
      simp [formBatch, hj, List.drop_eq_nil_of_le hle]
    · have hdrop : d.drop j = a :: d.drop (j + 1) := drop_cons_of_getElem d j a hj
      simp [formBatch, hj, ih (j + 1) (i + 1), hdrop]
      omega

/-- The executor loop stops once the cursor has passed the end of the list. -/
theorem execLoopV2_done (backend : List String → BatchResult) (removed : String → Bool)
    (d : List ArchiveItem) (fuel i : Nat) (h : d.length ≤ i) :
    execLoopV2 backend removed d fuel i = ([], []) := by
  cases fuel with
  | zero => rfl
  | succ fuel => simp [execLoopV2, Nat.not_lt.mpr h]

/-- C4 (amended): when a batch delete request fails with the backend-reported
"does not exist" condition, the executor does NOT resubmit the batch members
individually: for any discard list that fits in one batch (and no
already-removed names), the whole run consists of exactly one backend call
carrying all the names, and its entire output is the single wholesale `gone`
report for the batch — no member is classified `Deleted` or individually
`AlreadyGone`. -/
theorem batch_no_individual_fallback (backend : List String → BatchResult)
    (d : List ArchiveItem) (hne : d ≠ []) (hlen : d.length ≤ 100)
    (hb : backend (d.map ArchiveItem.name) = BatchResult.notExist) :
    execV2 backend (fun _ => false) d
      = ([ExecEvent.goneBatch (d.map ArchiveItem.name)], [d.map ArchiveItem.name]) := by
  have h0 : 0 < d.length := List.length_pos.mpr hne
  have hform := formBatch_all_kept d 100 0 0
  rw [List.drop_zero, List.take_of_length_le hlen] at hform
  show execLoopV2 backend (fun _ => false) d (d.length + 1) 0 = _
  rw [execLoopV2]
  simp only [h0, if_true, hform, runBatch, hb]
  simp [execLoopV2_done backend (fun _ => false) d d.length d.length (le_refl _)]

/-- Witness for `batch_no_individual_fallback` on a concrete two-name batch. -/
theorem batch_no_individual_fallback_w :
    execV2 (fun ns => if ns = ["u", "v"] then BatchResult.notExist else BatchResult.ok)
        (fun _ => false) [⟨0, "u"⟩, ⟨day, "v"⟩]
      = ([ExecEvent.goneBatch (([⟨0, "u"⟩, ⟨day, "v"⟩] : List ArchiveItem).map ArchiveItem.name)],
         [([⟨0, "u"⟩, ⟨day, "v"⟩] : List ArchiveItem).map ArchiveItem.name]) :=
  batch_no_individual_fallback _ _ (by decide) (by decide) (by decide)

/-- `Except.map` preserves success. -/
theorem isOkE_map {α β γ : Type} (f : β → γ) (x : Except α β) :
    isOkE (Except.map f x) = isOkE x := by
  cases x <;> rfl

/-- The scan loop succeeds exactly when every input line is well-formed. -/
theorem parseCatalogLines_ok_iff (lines : List String) :
    isOkE (parseCatalogLines lines) = lines.all wellFormedLine := by
  induction lines with
  | nil => rfl
  | cons l rest ih =>
    by_cases ht : tabCount l = 1
    · rcases hp : parseTimestamp (splitTab l).2 with _ | t
      · simp [parseCatalogLines, ht, hp, wellFormedLine, isOkE]
      · simp [parseCatalogLines, ht, hp, wellFormedLine, isOkE_map, ih]
    · simp [parseCatalogLines, ht, wellFormedLine, isOkE]

/-- On success, the scan loop returns one record per input line. -/
theorem parseCatalogLines_length (lines : List String) :
    ∀ items, parseCatalogLines lines = Except.ok items → items.length = lines.length := by
  induction lines with
  | nil => intro items h; cases h; rfl
  | cons l rest ih =>
    intro items h
    by_cases ht : tabCount l = 1
    · rcases hp : parseTimestamp (splitTab l).2 with _ | t
      · simp [parseCatalogLines, ht, hp] at h
      · rcases hx : parseCatalogLines rest with e | its
        · simp [parseCatalogLines, ht, hp, hx, Except.map] at h
        · have hit : items = ⟨t, (splitTab l).1⟩ :: its := by
            have h2 := h
            simp [parseCatalogLines, ht, hp, hx, Except.map] at h2
            exact h2.symm ▸ rfl
          subst hit
          simp [ih its hx]
    · simp [parseCatalogLines, ht] at h

/-- Insertion grows the length by one. -/
theorem insertByDate_length (a : ArchiveItem) (l : List ArchiveItem) :
    (insertByDate a l).length = l.length + 1 := by
  induction l with
  | nil => rfl
  | cons b rest ih =>
    by_cases hlt : a.date < b.date <;> simp [insertByDate, hlt, ih]

/-- Sorting preserves the length. -/
theorem sortByDate_length (l : List ArchiveItem) :
    (sortByDate l).length = l.length := by
  induction l with
  | nil => rfl
  | cons a rest ih => simp [sortByDate, insertByDate_length, ih]

/-- C10 (confirmed): catalog parsing is all-or-nothing — `getArchiveItems`
succeeds exactly when every line has exactly one tab and a parsable
timestamp (so one malformed line anywhere makes the whole call return an
error and no record list at all), and on success it returns exactly one
record per input line (no line is dropped). -/
theorem catalog_all_or_nothing (lines : List String) :
    isOkE (getArchiveItems lines) = lines.all wellFormedLine
    ∧ ∀ items, getArchiveItems lines = Except.ok items → items.length = lines.length := by
  constructor
  · rw [getArchiveItems, isOkE_map, parseCatalogLines_ok_iff]
  · intro items h
    unfold getArchiveItems at h
    rcases hx : parseCatalogLines lines with e | its
    · rw [hx] at h; cases h
    · rw [hx] at h
      have hit : items = sortByDate its := by simpa [Except.map] using h.symm
      subst hit
      rw [sortByDate_length]
      exact parseCatalogLines_length lines its hx

/-- Witness for `catalog_all_or_nothing` on a one-line catalog. -/
theorem catalog_all_or_nothing_w :
    isOkE (getArchiveItems ["a\t1970-01-01 00:00:01"])
        = (["a\t1970-01-01 00:00:01"] : List String).all wellFormedLine
    ∧ ([(⟨1, "a"⟩ : ArchiveItem)].length
        = (["a\t1970-01-01 00:00:01"] : List String).length) :=
  ⟨(catalog_all_or_nothing ["a\t1970-01-01 00:00:01"]).1,
   (catalog_all_or_nothing ["a\t1970-01-01 00:00:01"]).2 [⟨1, "a"⟩] (by rfl)⟩

/-- C9 counterexample: the claim says a pattern without explicit anchors is
auto-anchored so that it matches a determinate subset instead of
over-matching. The code turns `abc` into `.*abc.*`, which still matches the
name `xxabcyy` exactly as the un-anchored original does, while a genuinely
anchored `^abc$` does not — the transformation widens, it does not anchor. -/
theorem augment_anchoring_cex :
    augmentRegex "abc" = ".*abc.*"
    ∧ reMatch (augmentRegex "abc") "xxabcyy" = true
    ∧ reMatch "abc" "xxabcyy" = true
    ∧ reMatch "^abc$" "xxabcyy" = false := by
  decide

/-- A string whose head word is a prefix of another string stays a prefix
after appending. -/
theorem strStartsWith_extend (p head s : String) (h : strStartsWith head p = true) :
    strStartsWith (head ++ s) p = true := by
  simp only [strStartsWith, String.toList] at h ⊢
  rw [String.data_append]
  rw [List.isPrefixOf_iff_prefix] at h ⊢
  exact h.trans (List.prefix_append _ _)

/-- Lines produced through `filterMap` all carry stable tags when every
produced line does. -/
theorem mem_filterMap_tags {α : Type} (f : α → Option String) (l : List α)
    (hf : ∀ a s, f a = some s → stableTag s) : ∀ s ∈ l.filterMap f, stableTag s := by
  intro s hs
  rcases List.mem_filterMap.mp hs with ⟨a, _, hfa⟩
  exact hf a s hfa

/-- Every variant 1 selection line starts with a stable prefix. -/
theorem renderSelV1_tags (dr : Bool) (evts : List SelEvent) :
    ∀ l ∈ renderSelV1 dr evts, stableTag l := by
  refine mem_filterMap_tags _ _ ?_
  intro ev s h
  rcases ev with a | a | n
  · cases dr <;> simp at h
    · exact h ▸ Or.inl (strStartsWith_extend "keep" "keep " _ (by decide))
  · cases dr <;> simp at h
    · exact h ▸ Or.inr (Or.inl (strStartsWith_extend "discard" "discard " _ (by decide)))
  · simp at h
    exact h ▸ Or.inr (Or.inr (Or.inl (strStartsWith_extend "gone" "gone    " _ (by decide))))

/-- Every variant 2 selection line starts with a stable prefix (the `keep1`
lines begin with `keep`). -/
theorem renderSelV2_tags (dr : Bool) (evts : List SelEvent) :
    ∀ l ∈ renderSelV2 dr evts, stableTag l := by
  refine mem_filterMap_tags _ _ ?_
  intro ev s h
  rcases ev with a | a | n
  · cases dr <;> simp at h
    · exact h ▸ Or.inl (strStartsWith_extend "keep" "keep1 " _ (by decide))
  · cases dr <;> simp at h
    · exact h ▸ Or.inr (Or.inl (strStartsWith_extend "discard" "discard " _ (by decide)))
  · simp at h
    exact h ▸ Or.inr (Or.inr (Or.inl (strStartsWith_extend "gone" "gone    " _ (by decide))))

/-- Every executor stdout line starts with a stable prefix. -/
theorem renderExec_tags (evts : List ExecEvent) :
    ∀ l ∈ evts.filterMap renderExecEvent, stableTag l := by
  refine mem_filterMap_tags _ _ ?_
  intro ev s h
  rcases ev with n | ns | n | _
  · simp [renderExecEvent] at h
    exact h ▸ Or.inr (Or.inr (Or.inl (strStartsWith_extend "gone" "gone    " _ (by decide))))
  · simp [renderExecEvent] at h
    refine h ▸ Or.inr (Or.inr (Or.inl ?_))
    exact strStartsWith_extend "gone" _ "]"
      (strStartsWith_extend "gone" "gone    [" _ (by decide))
  · simp [renderExecEvent] at h
    exact h ▸ Or.inr (Or.inr (Or.inr (strStartsWith_extend "deleted" "deleted " _ (by decide))))
  · simp [renderExecEvent] at h

/-- C8 (amended): every status line the program emits — selection lines of
both variants and executor outcome lines — begins with one of the stable
prefixes `keep`, `discard`, `gone`, `deleted` (the variant 2/3 keep lines
literally begin `keep1`, which starts with `keep`). The claim's "exactly one
line per decision/outcome" part fails, see the counterexample: variant 1
prints a window-terminating record's `keep` line twice. -/
theorem status_lines_stable_tags (dr : Bool) (nameFilter removed : String → Bool)
    (t2y t2m : Int) (items : List ArchiveItem) (backend : List String → BatchResult) :
    (∀ l ∈ (runMainV2 dr nameFilter removed t2y t2m items backend).1, stableTag l)
    ∧ (∀ l ∈ renderSelV1 dr (selectV1 t2y t2m items), stableTag l) := by
  constructor
  · intro l hl
    rcases dr with _ | _
    · simp only [runMainV2, if_false, Bool.false_eq_true] at hl
      rcases List.mem_append.mp hl with h | h
      · exact renderSelV2_tags _ _ l h
      · exact renderExec_tags _ l h
    · simp only [runMainV2, if_true] at hl
      exact renderSelV2_tags _ _ l hl
  · intro l hl
    exact renderSelV1_tags _ _ l hl

/-- Witness for `status_lines_stable_tags` on a concrete dry run. -/
theorem status_lines_stable_tags_w : stableTag "keep1 a\t1970-01-01 00:00:00" :=
  (status_lines_stable_tags true (fun _ => true) (fun _ => false) 0 0 [⟨0, "a"⟩]
    (fun _ => BatchResult.ok)).1 "keep1 a\t1970-01-01 00:00:00" (by decide)

/-- `String.toList` distributes over append. -/
theorem toList_append (x y : String) : (x ++ y).toList = x.toList ++ y.toList := by
  simp [String.toList, String.data_append]

/-- The last element of a list is a member. -/
theorem mem_of_getLast?_eq {l : List Char} {a : Char} (h : l.getLast? = some a) : a ∈ l := by
  obtain ⟨hne2, heq⟩ := List.mem_getLast?_eq_getLast (Option.mem_def.mpr h)
  rw [heq]
  exact List.getLast_mem hne2

/-- Appending `.*` to a pattern body appends one starred any-atom to its
pieces. -/
theorem parsePieces_append_dotstar (l : List Char) :
    parsePieces (l ++ ['.', '*']) = parsePieces l ++ [Piece.star Atom.any] := by
  suffices h : ∀ (n : Nat) (l2 : List Char), l2.length ≤ n →
      parsePieces (l2 ++ ['.', '*']) = parsePieces l2 ++ [Piece.star Atom.any] from
    h l.length l (le_refl _)
  intro n
  induction n with
  | zero =>
    intro l2 hl
    rcases l2 with _ | ⟨c, t⟩
    · rfl
    · simp at hl
  | succ n ih =>
    intro l2 hl
    rcases l2 with _ | ⟨c, _ | ⟨d, rest⟩⟩
    · rfl
    · rfl
    · by_cases hd : d = '*'
      · subst hd
        have h1 : parsePieces ((c :: '*' :: rest) ++ ['.', '*'])
            = Piece.star (atomOf c) :: parsePieces (rest ++ ['.', '*']) := rfl
        have h2 : parsePieces (c :: '*' :: rest)
            = Piece.star (atomOf c) :: parsePieces rest := rfl
        rw [h1, h2, ih rest (by simp at hl; omega)]
        simp
      · have h1 : parsePieces ((c :: d :: rest) ++ ['.', '*'])
            = Piece.one (atomOf c) :: parsePieces ((d :: rest) ++ ['.', '*']) := by
          simp [parsePieces, hd]
        have h2 : parsePieces (c :: d :: rest)
            = Piece.one (atomOf c) :: parsePieces (d :: rest) := by
          simp [parsePieces, hd]
        rw [h1, h2, ih (d :: rest) (by simp at hl ⊢; omega)]
        simp

/-- A leading starred any-atom turns positional matching into unanchored
search. -/
theorem matchHere_star_any (ps : List Piece) (dollar : Bool) (s : List Char) :
    matchHere (Piece.star Atom.any :: ps) dollar s = searchFrom ps dollar s := by
  induction s with
  | nil => simp [matchHere, starTries, searchFrom]
  | cons c s ih =>
    have h1 : matchHere (Piece.star Atom.any :: ps) dollar (c :: s)
        = (matchHere ps dollar (c :: s) || matchHere (Piece.star Atom.any :: ps) dollar s) := by
      simp [matchHere, starTries, matchAtom]
    rw [h1, ih]
    rfl

/-- A leading starred any-atom is transparent to unanchored search. -/
theorem searchFrom_star_any (ps : List Piece) (dollar : Bool) (s : List Char) :
    searchFrom (Piece.star Atom.any :: ps) dollar s = searchFrom ps dollar s := by
  induction s with
  | nil =>
    show matchHere (Piece.star Atom.any :: ps) dollar [] = searchFrom ps dollar []
    rw [matchHere_star_any]
  | cons c s ih =>
    have h1 : searchFrom (Piece.star Atom.any :: ps) dollar (c :: s)
        = (matchHere (Piece.star Atom.any :: ps) dollar (c :: s)
            || searchFrom (Piece.star Atom.any :: ps) dollar s) := rfl
    have h2 : searchFrom ps dollar (c :: s)
        = (matchHere ps dollar (c :: s) || searchFrom ps dollar s) := rfl
    rw [h1, ih, matchHere_star_any, h2, Bool.or_assoc, Bool.or_self]

/-- A trailing starred any-atom is transparent when no end anchor is
present. -/
theorem matchHere_trailing_star (ps : List Piece) :
    ∀ s : List Char, matchHere (ps ++ [Piece.star Atom.any]) false s = matchHere ps false s := by
  induction ps with
  | nil =>
    intro s
    rcases s with _ | ⟨c, s2⟩ <;> simp [matchHere, starTries]
  | cons p ps ih =>
    intro s
    rcases p with a | a
    · rcases s with _ | ⟨c, s2⟩
      · rfl
      · simp [matchHere, ih]
    · simp [matchHere, ih]

/-- A trailing starred any-atom is transparent to unanchored search without
an end anchor. -/
theorem searchFrom_trailing_star (ps : List Piece) (s : List Char) :
    searchFrom (ps ++ [Piece.star Atom.any]) false s = searchFrom ps false s := by
  induction s with
  | nil =>
    show matchHere _ false [] = matchHere _ false []
    rw [matchHere_trailing_star]
  | cons c s ih =>
    have h1 : searchFrom (ps ++ [Piece.star Atom.any]) false (c :: s)
        = (matchHere (ps ++ [Piece.star Atom.any]) false (c :: s)
            || searchFrom (ps ++ [Piece.star Atom.any]) false s) := rfl
    rw [h1, ih, matchHere_trailing_star]
    rfl

/-- For a pattern with no anchors, `reMatch` is the unanchored search over its
pieces. -/
theorem reMatch_not_anchored (pat s : String) (hh : ¬ pat.toList.head? = some '^')
    (hl : ¬ pat.toList.getLast? = some '$') :
    reMatch pat s = searchFrom (parsePieces pat.toList) false s.toList := by
  simp only [reMatch, if_neg hh, if_neg hl, decide_eq_false hl]

/-- C9 (amended): the `.*` padding applied to a pattern without explicit
anchors does not change which names the collaborator matches at all — the
transformation widens the pattern text but leaves the unanchored match
semantics identical, so a partial pattern still matches every name containing
a match of it; it does not anchor. -/
theorem augment_preserves_search (p s : String) (hne : p.toList ≠ [])
    (hanch : ∀ c ∈ p.toList, c ≠ '^' ∧ c ≠ '$') :
    reMatch (augmentRegex p) s = reMatch p s := by
  obtain ⟨c0, l0, hp⟩ : ∃ c0 l0, p.toList = c0 :: l0 := by
    rcases hl : p.toList with _ | ⟨c0, l0⟩
    · exact absurd hl hne
    · exact ⟨c0, l0, rfl⟩
  have hc0 : c0 ≠ '^' := (hanch c0 (by rw [hp]; exact List.mem_cons_self _ _)).1
  have hlast : p.toList.getLast? ≠ some '$' := fun h =>
    (hanch '$' (mem_of_getLast?_eq h)).2 rfl
  have hhead : ¬ p.toList.head? = some '^' := by
    rw [hp]
    simpa using hc0
  have h1 : augmentRegex p = (".*" ++ p) ++ ".*" := by
    unfold augmentRegex
    rw [if_neg hhead, if_neg]
    intro hcontra
    rw [toList_append, List.getLast?_append] at hcontra
    rcases hy : p.toList.getLast? with _ | y
    · rw [hp] at hy
      simp [List.getLast?_eq_none_iff] at hy
    · rw [hy] at hcontra
      exact hlast (hy.trans hcontra)
  have hlist : (augmentRegex p).toList = '.' :: '*' :: (p.toList ++ ['.', '*']) := by
    rw [h1, toList_append, toList_append]
    rfl
  have hlast2 : (augmentRegex p).toList.getLast? = some '*' := by
    rw [hlist, show '.' :: '*' :: (p.toList ++ ['.', '*'])
        = ('.' :: '*' :: p.toList) ++ ['.', '*'] by simp, List.getLast?_append]
    rfl
  have hps : parsePieces ((augmentRegex p).toList)
      = Piece.star Atom.any :: (parsePieces p.toList ++ [Piece.star Atom.any]) := by
    rw [hlist]
    have h3 : parsePieces ('.' :: '*' :: (p.toList ++ ['.', '*']))
        = Piece.star (atomOf '.') :: parsePieces (p.toList ++ ['.', '*']) := rfl
    rw [h3, parsePieces_append_dotstar]
    rfl
  have hhead2 : (augmentRegex p).toList.head? = some '.' := by
    rw [hlist]
    rfl
  rw [reMatch_not_anchored (augmentRegex p) s (by rw [hhead2]; simp) (by rw [hlast2]; simp),
      reMatch_not_anchored p s hhead hlast, hps,
      searchFrom_star_any, searchFrom_trailing_star]

/-- Witness for `augment_preserves_search` on a concrete anchor-free pattern. -/
theorem augment_preserves_search_w :
    reMatch (augmentRegex "abc") "zzabczz" = reMatch "abc" "zzabczz" :=
  augment_preserves_search "abc" "zzabczz" (by decide) (by decide)

end Tarsnap
